import Mathlib

/-!
# Verification of the STM32 USB host channel engine

A shallow embedding of `embassy-stm32/src/usb/usb_host.rs` (the channel
transfer engine of the USB full-speed host driver), together with proofs
of the specified properties.

The file is organised as: definitions translated from the source, hardware
write semantics modelled from the spec's register contract, then one theorem
per claim.
-/

set_option maxRecDepth 100000

namespace UsbHost

/-! ## Platform constants

The source selects the packet-memory geometry by `cfg`; the only `btable`
module present in the file is the one for 32-bit USBRAM
(`usbram_32_1024` / `usbram_32_2048`), so the access granularity is 4 bytes.
We fix the 1024-byte pool (`usbram_32_1024`). -/

def USBRAM_ALIGN : Nat := 4

def USBRAM_SIZE : Nat := 1024

def EP_COUNT : Nat := 8

/-! ## Channel status codes (`crate::pac::usb::vals::Stat`) -/

/-- The 2-bit receive/transmit status field of a channel register. -/
inductive Stat where
  | disabled
  | stall
  | nak
  | valid
deriving DecidableEq

def statToBits : Stat → Nat
  | .disabled => 0
  | .stall => 1
  | .nak => 2
  | .valid => 3

/-- `Stat::from_bits`: decode a 2-bit value into a status code. -/
def statFromBits (n : Nat) : Stat :=
  match n % 4 with
  | 0 => .disabled
  | 1 => .stall
  | 2 => .nak
  | _ => .valid

/-! ## The channel-control register (`stm32_metapac::usb::regs::Epr`)

Modelled field-wise rather than as a packed 32-bit word; the fields are the
ones of the USB_DRD channel/endpoint register the source reads and writes. -/

structure Epr where
  ea : Nat
  stat_tx : Stat
  dtog_tx : Bool
  ctr_tx : Bool
  ep_kind : Bool
  ep_type : Nat
  setup : Bool
  stat_rx : Stat
  dtog_rx : Bool
  ctr_rx : Bool
  devaddr : Nat
  nak : Bool
  ls_ep : Bool
  err_tx : Bool
  err_rx : Bool
deriving DecidableEq

/-- `invariant` (usb_host.rs:141-149): canonicalize a just-read register value
so that writing it back has no side effect: complete-flags kept at their
no-clear encoding `1`, data-toggle bits at the no-toggle encoding `0`, status
fields at the no-toggle encoding `0`; all other fields are left as read. -/
def invariant (r : Epr) : Epr :=
  { r with
    ctr_rx := true
    ctr_tx := true
    dtog_rx := false
    dtog_tx := false
    stat_rx := statFromBits 0
    stat_tx := statFromBits 0 }

/-- Modelled from the spec: the hardware semantics of a write to the
channel-control register (spec section 3). The status and data-toggle fields
are write-1-to-toggle: the value written is XOR-ed onto the current value.
The complete-flags and error flags keep their current value when written `1`
and are cleared when written `0` (the encoding the source's
`// don't clear` comments in `invariant` rely on). The remaining fields are
plain read-write. -/
def applyEprWrite (cur w : Epr) : Epr :=
  { ea := w.ea
    stat_tx := statFromBits (statToBits cur.stat_tx ^^^ statToBits w.stat_tx)
    dtog_tx := Bool.xor cur.dtog_tx w.dtog_tx
    ctr_tx := cur.ctr_tx && w.ctr_tx
    ep_kind := w.ep_kind
    ep_type := w.ep_type
    setup := w.setup
    stat_rx := statFromBits (statToBits cur.stat_rx ^^^ statToBits w.stat_rx)
    dtog_rx := Bool.xor cur.dtog_rx w.dtog_rx
    ctr_rx := cur.ctr_rx && w.ctr_rx
    devaddr := w.devaddr
    nak := cur.nak && w.nak
    ls_ep := w.ls_ep
    err_tx := cur.err_tx && w.err_tx
    err_rx := cur.err_rx && w.err_rx }

/-! ## The interrupt-status register (`regs::Istr`)

Modelled field-wise. `regs::Istr(!0)` is the value with every field
all-ones. -/

structure Istr where
  ep_id : Nat
  dir : Bool
  l1req : Bool
  esof : Bool
  sof : Bool
  reset : Bool
  susp : Bool
  wkup : Bool
  err : Bool
  pmaovr : Bool
  ctr : Bool
  dcon_stat : Bool
deriving DecidableEq

/-- `regs::Istr(!0)`: all fields at their all-ones value (`ep_id` is a 4-bit
field). -/
def istrAllOnes : Istr :=
  { ep_id := 15, dir := true, l1req := true, esof := true, sof := true,
    reset := true, susp := true, wkup := true, err := true, pmaovr := true,
    ctr := true, dcon_stat := true }

/-- The value the dispatcher writes to ISTR in the reset branch
(usb_host.rs:43-45): `Istr(!0)` with the `reset` field set to `false`. -/
def istrWriteOnReset : Istr :=
  { istrAllOnes with reset := false }

/-- The reset/connect-state-change branch of `on_interrupt`
(usb_host.rs:39-51): when `istr.reset()` is asserted, write
`istrWriteOnReset` to ISTR and wake the bus waker (the returned `Bool`).
Returns `none` when the branch is not taken. -/
def onInterruptResetBranch (istr : Istr) : Option (Istr × Bool) :=
  if istr.reset then some (istrWriteOnReset, true) else none

/-- The transaction-complete (`istr.ctr()`) branch of `on_interrupt` for the
channel index it identifies (usb_host.rs:53-84): given the channel register
value read, returns the value written back and the pair
(In waker woken, Out waker woken). -/
def onInterruptCtr (epr : Epr) : Epr × Bool × Bool :=
  let eprValue := invariant epr
  let eprValue := if epr.err_tx then { eprValue with err_tx := false } else eprValue
  let eprValue := if epr.err_rx then { eprValue with err_rx := false } else eprValue
  let rxReady := epr.ctr_rx
  let txReady := epr.ctr_tx
  let eprValue := { eprValue with ctr_rx := !rxReady, ctr_tx := !txReady }
  (eprValue, rxReady, txReady)

/-! ## Length encoding (`align_len_up`, `calc_receive_len_bits`) -/

/-- `align_len_up` (usb_host.rs:151-153): round a length up to the USBRAM
access granularity. The source computes in `usize` and then truncates the
result `as u16`; the truncation is the final `% 65536` (so e.g.
`align_len_up(65533) = 0`, matching the source). -/
def alignLenUp (len : Nat) : Nat :=
  ((len + USBRAM_ALIGN - 1) / USBRAM_ALIGN * USBRAM_ALIGN) % 65536

/-- `calc_receive_len_bits` (usb_host.rs:160-167): the receive buffer
descriptor's `(actual_len, len_bits)` for a maximum length. The source
panics outside `2..=1024`; the panic is modelled as `none`. -/
def calcReceiveLenBits (len : Nat) : Option (Nat × Nat) :=
  if 2 ≤ len ∧ len ≤ 60 then
    some (alignLenUp len, (alignLenUp len / 2) <<< 10)
  else if 61 ≤ len ∧ len ≤ 1024 then
    some ((len + 31) / 32 * 32, (((len + 31) / 32 - 1) <<< 10) ||| 0x8000)
  else
    none

/-- Modelled from the spec: the hardware's documented decode rule for the
max-length code (BL_SIZE in bit 15, NUM_BLOCK in bits 14:10): with the flag
bit set the buffer holds `(NUM_BLOCK + 1) * 32` bytes, otherwise
`NUM_BLOCK * 2` bytes. -/
def decodeMaxLenCode (c : Nat) : Nat :=
  if c &&& 0x8000 ≠ 0 then (((c >>> 10) &&& 0x1F) + 1) * 32
  else ((c >>> 10) &&& 0x1F) * 2

/-! ## Packet-memory codec (`EndpointBuffer`, usb_host.rs:219-245)

Packet memory is the word-indexed map `Nat → Nat`; each word holds a
32-bit little-endian group of up to four bytes. -/

/-- Pointwise update of packet memory (one `USBRAM.mem(i).write_value`). -/
def memUpd (mem : Nat → Nat) (i v : Nat) : Nat → Nat :=
  fun j => if j = i then v else mem j

/-- `u32::from_le_bytes` on a byte list of length at most 4, missing bytes
zero-padded (the `let mut val = [0u8; USBRAM_ALIGN]` in `write`). -/
def leBytesToWord (bs : List Nat) : Nat :=
  bs.foldr (fun b acc => b + 256 * acc) 0

/-- `u32::to_le_bytes`. -/
def wordToLeBytes (w : Nat) : List Nat :=
  [w % 256, w / 256 % 256, w / 65536 % 256, w / 16777216 % 256]

/-- The loop of `EndpointBuffer::read` (usb_host.rs:220-227): `fuel` is the
iteration count `(buf.len() + USBRAM_ALIGN - 1) / USBRAM_ALIGN`; each
iteration reads one word and copies `min USBRAM_ALIGN remaining` bytes. -/
def ebReadAux (mem : Nat → Nat) : Nat → Nat → Nat → List Nat
  | 0, _, _ => []
  | fuel + 1, wordIdx, n =>
    (wordToLeBytes (mem wordIdx)).take (min USBRAM_ALIGN n) ++
      ebReadAux mem fuel (wordIdx + 1) (n - min USBRAM_ALIGN n)

/-- The loop of `EndpointBuffer::write` (usb_host.rs:229-244): consume the
byte slice in groups of `USBRAM_ALIGN`, packing each group little-endian
(zero-padding a final partial group) into consecutive words. -/
def ebWriteAux (mem : Nat → Nat) (wordIdx : Nat) : List Nat → (Nat → Nat)
  | [] => mem
  | [b0] => memUpd mem wordIdx (leBytesToWord [b0])
  | [b0, b1] => memUpd mem wordIdx (leBytesToWord [b0, b1])
  | [b0, b1, b2] => memUpd mem wordIdx (leBytesToWord [b0, b1, b2])
  | b0 :: b1 :: b2 :: b3 :: rest =>
    ebWriteAux (memUpd mem wordIdx (leBytesToWord [b0, b1, b2, b3])) (wordIdx + 1) rest

/-- A channel's allocated packet-memory region (`EndpointBuffer { addr, len }`). -/
structure EndpointBuffer where
  addr : Nat
  len : Nat
deriving DecidableEq

/-- `EndpointBuffer::read`: read `n` bytes out of the region. The
`assert!(buf.len() <= self.len)` is modelled as `none` on violation. -/
def EndpointBuffer.readBytes (eb : EndpointBuffer) (mem : Nat → Nat) (n : Nat) :
    Option (List Nat) :=
  if n ≤ eb.len then
    some (ebReadAux mem ((n + USBRAM_ALIGN - 1) / USBRAM_ALIGN) (eb.addr / USBRAM_ALIGN) n)
  else none

/-- `EndpointBuffer::write`: pack a byte slice into the region. The
`assert!(buf.len() <= self.len)` is modelled as `none` on violation. -/
def EndpointBuffer.writeBytes (eb : EndpointBuffer) (mem : Nat → Nat) (bytes : List Nat) :
    Option (Nat → Nat) :=
  if bytes.length ≤ eb.len then
    some (ebWriteAux mem (eb.addr / USBRAM_ALIGN) bytes)
  else none

/-! ## Channel allocation (`USBHostDriver`, usb_host.rs:248-501)

Only the allocator-relevant state is carried: the bump pointer
`ep_mem_free` and the two in-use bitmasks. The MMIO effects of a claim
(the buffer-descriptor write and the channel-register configuration, a
write of `invariant(read)` with address/type/index set) are pure
consequences of the returned channel handle and are covered by the
`invariant` theorems. -/

structure DriverState where
  epMemFree : Nat
  channelsInUsed : Nat
  channelsOutUsed : Nat
deriving DecidableEq

/-- The two error exits of `claim_channel_in`/`claim_channel_out`. The
source returns `Err(())` for both; the constructor records which branch
(and which `error!` log) produced it. -/
inductive ClaimError where
  | alreadyInUse
  | outOfMemory
deriving DecidableEq

/-- The claimed channel handle (`Channel::new(index, addr, len, max_packet_size)`). -/
structure ChannelHandle where
  index : Nat
  addr : Nat
  len : Nat
  maxPacketSize : Nat
deriving DecidableEq

inductive ClaimOutcome where
  | ok (ch : ChannelHandle)
  | error (e : ClaimError)
deriving DecidableEq

inductive AllocOutcome where
  | ok (addr : Nat)
  | error
deriving DecidableEq

/-- Driver construction / `reset_alloc` (usb_host.rs:415-421): rewind the
bump pointer past the 8-byte-per-channel descriptor table and clear both
in-use bitmasks. -/
def resetAlloc (_s : DriverState) : DriverState :=
  { epMemFree := EP_COUNT * 8, channelsInUsed := 0, channelsOutUsed := 0 }

/-- The allocator state `USBHostDriver::new` starts from. -/
def initialDriverState : DriverState :=
  { epMemFree := EP_COUNT * 8, channelsInUsed := 0, channelsOutUsed := 0 }

/-- `alloc_channel_mem` (usb_host.rs:423-433): bump-pointer allocation.
The `assert!(len % USBRAM_ALIGN == 0)` is modelled as `none` on violation.
`addr + len` is a `u16` addition: its overflow (a panic under debug
assertions, a silent wrap in release) is likewise modelled as `none`,
restricting the model to the domain where the `u16` comparison and the
`ep_mem_free += len` update agree with the mathematical sum. -/
def allocChannelMem (s : DriverState) (len : Nat) :
    Option (AllocOutcome × DriverState) :=
  if len % USBRAM_ALIGN ≠ 0 then none
  else if s.epMemFree + len ≥ 65536 then none
  else if s.epMemFree + len > USBRAM_SIZE then some (.error, s)
  else some (.ok s.epMemFree, { s with epMemFree := s.epMemFree + len })

/-- `claim_channel_in` (usb_host.rs:435-467). The endpoint type and device
address only flow into the register-configuration write and are omitted
from the allocator model. `calc_receive_len_bits`'s panic propagates as
`none`. -/
def claimChannelIn (s : DriverState) (index maxPacketSize : Nat) :
    Option (ClaimOutcome × DriverState) :=
  if s.channelsInUsed &&& (1 <<< index) ≠ 0 then
    some (.error .alreadyInUse, s)
  else
    let s := { s with channelsInUsed := s.channelsInUsed ||| (1 <<< index) }
    match calcReceiveLenBits maxPacketSize with
    | none => none
    | some (len, _lenBits) =>
      match allocChannelMem s len with
      | none => none
      | some (.error, s') => some (.error .outOfMemory, s')
      | some (.ok addr, s') =>
        some (.ok { index := index, addr := addr, len := len,
                    maxPacketSize := maxPacketSize }, s')

/-- `claim_channel_out` (usb_host.rs:469-501). -/
def claimChannelOut (s : DriverState) (index maxPacketSize : Nat) :
    Option (ClaimOutcome × DriverState) :=
  if s.channelsOutUsed &&& (1 <<< index) ≠ 0 then
    some (.error .alreadyInUse, s)
  else
    let s := { s with channelsOutUsed := s.channelsOutUsed ||| (1 <<< index) }
    let len := alignLenUp maxPacketSize
    match allocChannelMem s len with
    | none => none
    | some (.error, s') => some (.error .outOfMemory, s')
    | some (.ok addr, s') =>
      some (.ok { index := index, addr := addr, len := len,
                  maxPacketSize := maxPacketSize }, s')

/-! ## Channel transfer engine (`Channel::<In>::read`, `Channel::<Out>::write`)

The engine is a cooperatively polled loop; each poll observes the hardware
(connect state, elapsed time, the channel register, the received-length
field of the buffer descriptor, packet memory) and either completes,
stays pending, or re-arms. One observation per poll: -/

structure PollObs where
  epr : Epr
  dconStat : Bool
  elapsed : Nat
  rxLenRaw : Nat
  mem : Nat → Nat

/-- `t0.elapsed() > Duration::from_millis(timeout_ms)` guarded on
`options.timeout_ms` being set. -/
def timeoutExceeded : Option Nat → Nat → Bool
  | none, _ => false
  | some t, elapsed => elapsed > t

/-- `Channel::<In>::activate` (usb_host.rs:549-559): the register value
written to toggle `stat_rx` to Valid. -/
def activateRxWrite (eprVal : Epr) : Epr :=
  { invariant eprVal with
    stat_rx := statFromBits ((255 - statToBits eprVal.stat_rx) &&& 0x3) }

/-- `Channel::<In>::disable` (usb_host.rs:561-570): the register value
written to toggle `stat_rx` to Disabled (write the current value back). -/
def disableRxWrite (eprVal : Epr) : Epr :=
  { invariant eprVal with stat_rx := eprVal.stat_rx }

/-- `Channel::<Out>::activate` (usb_host.rs:646-656). -/
def activateTxWrite (eprVal : Epr) : Epr :=
  { invariant eprVal with
    stat_tx := statFromBits ((255 - statToBits eprVal.stat_tx) &&& 0x3) }

/-- `Channel::<Out>::disable` (usb_host.rs:658-667). -/
def disableTxWrite (eprVal : Epr) : Epr :=
  { invariant eprVal with stat_tx := eprVal.stat_tx }

inductive ChannelError where
  | Disconnected
  | Timeout
  | Stall
  | BufferOverflow
deriving DecidableEq

/-- `Result<usize, ChannelError>` of `read`. -/
inductive TransferResult where
  | ok (n : Nat)
  | error (e : ChannelError)
deriving DecidableEq

/-- `Result<(), ChannelError>` of `write`. -/
inductive WriteResult where
  | ok
  | error (e : ChannelError)
deriving DecidableEq

/-- The outcome of one poll of the read loop: `outcome = none` is
`Poll::Pending`; `epr` is the channel register after any write this poll
performed (applied with the hardware's toggle/clear semantics);
`sawDisabled` records that the Disabled status branch ran. -/
structure ReadStep where
  outcome : Option TransferResult
  rearmed : Bool
  sawDisabled : Bool
  epr : Epr
  count : Nat
  buf : List Nat

/-- One poll of `Channel::<In>::read`'s `poll_fn` closure
(usb_host.rs:590-634), including `read_data` (usb_host.rs:538-547).
`region` is the channel's `EndpointBuffer`, `count`/`buf` the accumulated
offset and caller-buffer contents; `none` models the
`assert!` inside `EndpointBuffer::read` firing. -/
def readPoll (mps bufLen : Nat) (region : EndpointBuffer) (timeoutMs : Option Nat)
    (obs : PollObs) (count : Nat) (buf : List Nat) : Option ReadStep :=
  if obs.dconStat = false then
    some { outcome := some (.error .Disconnected), rearmed := false, sawDisabled := false,
           epr := applyEprWrite obs.epr (disableRxWrite obs.epr), count := count, buf := buf }
  else if timeoutExceeded timeoutMs obs.elapsed then
    some { outcome := some (.error .Timeout), rearmed := false, sawDisabled := false,
           epr := applyEprWrite obs.epr (disableRxWrite obs.epr), count := count, buf := buf }
  else
    match obs.epr.stat_rx with
    | .disabled =>
      let rxLen := obs.rxLenRaw &&& 0x3FF
      if rxLen > bufLen - count then
        some { outcome := some (.error .BufferOverflow), rearmed := false, sawDisabled := true,
               epr := obs.epr, count := count, buf := buf }
      else if rxLen ≤ region.len then
        let data := ebReadAux obs.mem ((rxLen + USBRAM_ALIGN - 1) / USBRAM_ALIGN)
          (region.addr / USBRAM_ALIGN) rxLen
        let buf' := buf.take count ++ data ++ buf.drop (count + rxLen)
        let count' := count + rxLen
        if count' = bufLen ∨ rxLen < mps then
          some { outcome := some (.ok count'), rearmed := false, sawDisabled := true,
                 epr := obs.epr, count := count', buf := buf' }
        else
          some { outcome := none, rearmed := true, sawDisabled := true,
                 epr := applyEprWrite obs.epr (activateRxWrite obs.epr),
                 count := count', buf := buf' }
      else none
    | .stall =>
      some { outcome := some (.error .Stall), rearmed := false, sawDisabled := false,
             epr := obs.epr, count := count, buf := buf }
    | .nak =>
      some { outcome := none, rearmed := false, sawDisabled := false,
             epr := obs.epr, count := count, buf := buf }
    | .valid =>
      some { outcome := none, rearmed := false, sawDisabled := false,
             epr := obs.epr, count := count, buf := buf }

/-- One poll of `Channel::<Out>::write`'s `poll_fn` closure
(usb_host.rs:688-712). -/
def writePoll (timeoutMs : Option Nat) (obs : PollObs) : Option WriteResult × Epr :=
  if obs.dconStat = false then
    (some (.error .Disconnected), applyEprWrite obs.epr (disableTxWrite obs.epr))
  else if timeoutExceeded timeoutMs obs.elapsed then
    (some (.error .Timeout), applyEprWrite obs.epr (disableTxWrite obs.epr))
  else
    match obs.epr.stat_tx with
    | .disabled => (some .ok, obs.epr)
    | .stall => (some (.error .Stall), obs.epr)
    | .nak => (none, obs.epr)
    | .valid => (none, obs.epr)

/-- Result of driving a whole `read` over a trace of poll observations. -/
structure RunResult where
  result : TransferResult
  buf : List Nat
  disabledSeen : Nat
  rearms : Nat
deriving DecidableEq

/-- Drive `Channel::<In>::read` over a trace of poll observations,
accumulating the offset, the caller buffer, the number of Disabled-status
observations processed and the number of re-arms issued by the loop.
`none`: the trace ended while still pending (or an assertion fired). -/
def runRead (mps bufLen : Nat) (region : EndpointBuffer) (timeoutMs : Option Nat) :
    List PollObs → Nat → List Nat → Nat → Nat → Option RunResult
  | [], _, _, _, _ => none
  | obs :: rest, count, buf, dis, arms =>
    match readPoll mps bufLen region timeoutMs obs count buf with
    | none => none
    | some step =>
      let dis' := if step.sawDisabled then dis + 1 else dis
      let arms' := if step.rearmed then arms + 1 else arms
      match step.outcome with
      | some r => some { result := r, buf := step.buf, disabledSeen := dis', rearms := arms' }
      | none => runRead mps bufLen region timeoutMs rest step.count step.buf dis' arms'

/-! ## Helper lemmas about status-field encoding -/

theorem statFromBits_statToBits (s : Stat) : statFromBits (statToBits s) = s := by
  cases s <;> rfl

theorem statToBits_statFromBits_zero : statToBits (statFromBits 0) = 0 := rfl

theorem statFromBits_zero : statFromBits 0 = Stat.disabled := rfl

theorem statFromBits_xor_self (s : Stat) :
    statFromBits (statToBits s ^^^ statToBits s) = Stat.disabled := by
  cases s <;> rfl

theorem statFromBits_arm (s : Stat) :
    statFromBits (statToBits s ^^^ statToBits (statFromBits ((255 - statToBits s) &&& 0x3))) =
      Stat.valid := by
  cases s <;> rfl

/-- Toggling `stat_rx` by its own current value forces it to Disabled. -/
theorem applyEprWrite_disableRx (e : Epr) :
    (applyEprWrite e (disableRxWrite e)).stat_rx = Stat.disabled := by
  simp [applyEprWrite, disableRxWrite, invariant, statFromBits_xor_self, statFromBits_zero]

/-- Toggling `stat_tx` by its own current value forces it to Disabled. -/
theorem applyEprWrite_disableTx (e : Epr) :
    (applyEprWrite e (disableTxWrite e)).stat_tx = Stat.disabled := by
  simp [applyEprWrite, disableTxWrite, invariant, statFromBits_xor_self, statFromBits_zero]

/-- The arming write toggles `stat_rx` to Valid. -/
theorem applyEprWrite_activateRx (e : Epr) :
    (applyEprWrite e (activateRxWrite e)).stat_rx = Stat.valid := by
  simp [applyEprWrite, activateRxWrite, invariant, statFromBits_arm]

/-! ## C7: the canonicalization helper -/

/-- C7: `invariant` maps a channel-register value to a neutral value: the
complete-flags are at their no-clear encoding `1`, the data-toggle bits at
the no-toggle encoding `0`, the status fields at the no-toggle encoding `0`,
and every other field equals the input's field; consequently writing the
canonicalized value back (with the hardware's toggle/clear write semantics)
changes no field at all. -/
theorem invariant_canonical (r : Epr) :
    (invariant r).ctr_rx = true ∧ (invariant r).ctr_tx = true ∧
    (invariant r).dtog_rx = false ∧ (invariant r).dtog_tx = false ∧
    statToBits (invariant r).stat_rx = 0 ∧ statToBits (invariant r).stat_tx = 0 ∧
    (invariant r).ea = r.ea ∧ (invariant r).ep_type = r.ep_type ∧
    (invariant r).ep_kind = r.ep_kind ∧ (invariant r).setup = r.setup ∧
    (invariant r).devaddr = r.devaddr ∧ (invariant r).nak = r.nak ∧
    (invariant r).ls_ep = r.ls_ep ∧ (invariant r).err_tx = r.err_tx ∧
    (invariant r).err_rx = r.err_rx ∧
    applyEprWrite r (invariant r) = r := by
  refine ⟨rfl, rfl, rfl, rfl, rfl, rfl, rfl, rfl, rfl, rfl, rfl, rfl, rfl, rfl, rfl, ?_⟩
  cases r
  simp [invariant, applyEprWrite, statToBits_statFromBits_zero,
    statFromBits_statToBits]

/-! ## C3: the transaction-complete branch of the dispatcher -/

/-- C3: in the transaction-complete branch, the single register value written
back carries, for each complete-flag, the inverse of the value read — so an
asserted flag is written with its clearing encoding `0` and an unasserted
flag with the no-effect encoding `1`; applying the write leaves both
complete-flags deasserted and does not toggle the data-toggle bits or the
status fields; and the In waker is woken exactly when `ctr_rx` was asserted
and the Out waker exactly when `ctr_tx` was asserted, so a simultaneous
receive-complete and transmit-complete wakes both in one invocation. -/
theorem onInterruptCtr_spec (epr : Epr) :
    (onInterruptCtr epr).1.ctr_rx = !epr.ctr_rx ∧
    (onInterruptCtr epr).1.ctr_tx = !epr.ctr_tx ∧
    (applyEprWrite epr (onInterruptCtr epr).1).ctr_rx = false ∧
    (applyEprWrite epr (onInterruptCtr epr).1).ctr_tx = false ∧
    (applyEprWrite epr (onInterruptCtr epr).1).dtog_rx = epr.dtog_rx ∧
    (applyEprWrite epr (onInterruptCtr epr).1).dtog_tx = epr.dtog_tx ∧
    (applyEprWrite epr (onInterruptCtr epr).1).stat_rx = epr.stat_rx ∧
    (applyEprWrite epr (onInterruptCtr epr).1).stat_tx = epr.stat_tx ∧
    (onInterruptCtr epr).2.1 = epr.ctr_rx ∧
    (onInterruptCtr epr).2.2 = epr.ctr_tx := by
  cases epr with
  | mk ea stat_tx dtog_tx ctr_tx ep_kind ep_type setup stat_rx dtog_rx ctr_rx
      devaddr nk ls_ep err_tx err_rx =>
    cases err_tx <;> cases err_rx <;>
      simp [onInterruptCtr, invariant, applyEprWrite,
        statToBits_statFromBits_zero, statFromBits_statToBits]

/-! ## C8 (corrected): the reset branch of the dispatcher -/

/-- C8 counterexample: the claim says the dispatcher clears the reset status
bit by writing `1` to it with all other ISTR bits written `0`. In fact the
written value has the reset field at `0` and every other field all-ones
(the bits are write-0-to-clear, per the source's `// Write 0 to clear.`
comment), as evaluation at the concrete read value `istrAllOnes` shows. -/
theorem onInterruptReset_cex :
    onInterruptResetBranch istrAllOnes = some (istrWriteOnReset, true) ∧
    istrWriteOnReset.reset ≠ true ∧ istrWriteOnReset.err ≠ false := by
  decide

/-- C8 (amended): when the dispatcher observes the reset/connect-state-change
condition it clears that status bit explicitly by write-0-to-clear — the
value written has the reset field at `0` and every other bit of the
interrupt-status register written `1` so the others are not inadvertently
cleared — and then wakes the global bus waiter. -/
theorem onInterruptReset_amended (istr : Istr) (h : istr.reset = true) :
    onInterruptResetBranch istr = some (istrWriteOnReset, true) ∧
    istrWriteOnReset.reset = false ∧
    istrWriteOnReset.ctr = true ∧ istrWriteOnReset.err = true ∧
    istrWriteOnReset.pmaovr = true ∧ istrWriteOnReset.sof = true ∧
    istrWriteOnReset.esof = true ∧ istrWriteOnReset.susp = true ∧
    istrWriteOnReset.wkup = true ∧ istrWriteOnReset.l1req = true ∧
    istrWriteOnReset.dcon_stat = true ∧ istrWriteOnReset.dir = true ∧
    istrWriteOnReset.ep_id = 15 := by
  refine ⟨?_, by decide, by decide, by decide, by decide, by decide, by decide,
    by decide, by decide, by decide, by decide, by decide, by decide⟩
  simp [onInterruptResetBranch, h]

theorem onInterruptReset_amended_witness :
    istrAllOnes.reset = true ∧
    (onInterruptResetBranch istrAllOnes = some (istrWriteOnReset, true) ∧
      istrWriteOnReset.reset = false ∧
      istrWriteOnReset.ctr = true ∧ istrWriteOnReset.err = true ∧
      istrWriteOnReset.pmaovr = true ∧ istrWriteOnReset.sof = true ∧
      istrWriteOnReset.esof = true ∧ istrWriteOnReset.susp = true ∧
      istrWriteOnReset.wkup = true ∧ istrWriteOnReset.l1req = true ∧
      istrWriteOnReset.dcon_stat = true ∧ istrWriteOnReset.dir = true ∧
      istrWriteOnReset.ep_id = 15) :=
  ⟨rfl, onInterruptReset_amended istrAllOnes rfl⟩

/-! ## C4: disconnect before timeout; both error exits disable the channel -/

/-- C4: on every poll of `read` or `write` the disconnect condition is
checked before anything else — for every observation with the bus reporting
no device the poll returns `Disconnected`, whatever the elapsed time, the
timeout option or the status field hold — and both error exits write the
disable toggle, leaving the channel's status forced to Disabled; when the
bus is connected and the caller's timeout is exceeded the poll returns
`Timeout`, again with the status forced to Disabled. -/
theorem poll_disconnect_timeout_spec :
    (∀ mps bufLen region timeoutMs (obs : PollObs) count buf,
      obs.dconStat = false →
      ∃ step, readPoll mps bufLen region timeoutMs obs count buf = some step ∧
        step.outcome = some (.error .Disconnected) ∧
        step.epr.stat_rx = Stat.disabled) ∧
    (∀ mps bufLen region timeoutMs (obs : PollObs) count buf,
      obs.dconStat = true → timeoutExceeded timeoutMs obs.elapsed = true →
      ∃ step, readPoll mps bufLen region timeoutMs obs count buf = some step ∧
        step.outcome = some (.error .Timeout) ∧
        step.epr.stat_rx = Stat.disabled) ∧
    (∀ timeoutMs (obs : PollObs),
      obs.dconStat = false →
      (writePoll timeoutMs obs).1 = some (.error .Disconnected) ∧
      (writePoll timeoutMs obs).2.stat_tx = Stat.disabled) ∧
    (∀ timeoutMs (obs : PollObs),
      obs.dconStat = true → timeoutExceeded timeoutMs obs.elapsed = true →
      (writePoll timeoutMs obs).1 = some (.error .Timeout) ∧
      (writePoll timeoutMs obs).2.stat_tx = Stat.disabled) := by
  refine ⟨?_, ?_, ?_, ?_⟩
  · intro mps bufLen region timeoutMs obs count buf h
    refine ⟨ReadStep.mk (some (.error .Disconnected)) false false
        (applyEprWrite obs.epr (disableRxWrite obs.epr)) count buf,
      ?_, rfl, applyEprWrite_disableRx obs.epr⟩
    simp [readPoll, h]
  · intro mps bufLen region timeoutMs obs count buf h ht
    refine ⟨ReadStep.mk (some (.error .Timeout)) false false
        (applyEprWrite obs.epr (disableRxWrite obs.epr)) count buf,
      ?_, rfl, applyEprWrite_disableRx obs.epr⟩
    simp [readPoll, h, ht]
  · intro timeoutMs obs h
    exact ⟨by simp [writePoll, h], by simp [writePoll, h, applyEprWrite_disableTx]⟩
  · intro timeoutMs obs h ht
    exact ⟨by simp [writePoll, h, ht], by simp [writePoll, h, ht, applyEprWrite_disableTx]⟩

/-- A concrete channel-register value used by the poll witnesses. -/
def eprSample : Epr :=
  { ea := 1, stat_tx := Stat.nak, dtog_tx := false, ctr_tx := false,
    ep_kind := false, ep_type := 0, setup := false, stat_rx := Stat.valid,
    dtog_rx := false, ctr_rx := false, devaddr := 2, nak := false,
    ls_ep := false, err_tx := false, err_rx := false }

/-- Poll observation: device disconnected (with the timeout also exceeded,
showing the disconnect check wins). -/
def obsDisconnected : PollObs :=
  { epr := eprSample, dconStat := false, elapsed := 100, rxLenRaw := 0,
    mem := fun _ => 0 }

/-- Poll observation: device connected but the 30 ms budget exceeded. -/
def obsTimedOut : PollObs :=
  { epr := eprSample, dconStat := true, elapsed := 100, rxLenRaw := 0,
    mem := fun _ => 0 }

theorem poll_disconnect_timeout_witness :
    (∃ step, readPoll 64 200 ⟨64, 64⟩ (some 30) obsDisconnected 0 (List.replicate 200 0) =
        some step ∧
      step.outcome = some (.error .Disconnected) ∧ step.epr.stat_rx = Stat.disabled) ∧
    (∃ step, readPoll 64 200 ⟨64, 64⟩ (some 30) obsTimedOut 0 (List.replicate 200 0) =
        some step ∧
      step.outcome = some (.error .Timeout) ∧ step.epr.stat_rx = Stat.disabled) ∧
    ((writePoll (some 30) obsDisconnected).1 = some (.error .Disconnected) ∧
      (writePoll (some 30) obsDisconnected).2.stat_tx = Stat.disabled) ∧
    ((writePoll (some 30) obsTimedOut).1 = some (.error .Timeout) ∧
      (writePoll (some 30) obsTimedOut).2.stat_tx = Stat.disabled) :=
  ⟨poll_disconnect_timeout_spec.1 64 200 ⟨64, 64⟩ (some 30) obsDisconnected 0
      (List.replicate 200 0) rfl,
    poll_disconnect_timeout_spec.2.1 64 200 ⟨64, 64⟩ (some 30) obsTimedOut 0
      (List.replicate 200 0) rfl rfl,
    poll_disconnect_timeout_spec.2.2.1 (some 30) obsDisconnected rfl,
    poll_disconnect_timeout_spec.2.2.2 (some 30) obsTimedOut rfl rfl⟩

/-! ## C1: the receive max-length code -/

theorem decodeMaxLenCode_small (x : Nat) (h : x < 32) :
    decodeMaxLenCode (x <<< 10) = 2 * x := by
  revert x h
  decide

theorem decodeMaxLenCode_large (b : Nat) (h : b < 32) :
    decodeMaxLenCode ((b <<< 10) ||| 0x8000) = (b + 1) * 32 := by
  revert b h
  decide

/-- C1: `calc_receive_len_bits` implements the hardware piecewise rule:
for `L` in `2..=60` it returns the granularity-aligned length with code
`(aligned / 2) <<< 10`; for `L` in `61..=1024` it returns `L` rounded up to
a multiple of 32 — a value that is at least `L` and at most `L + 31` — with
code `((blocks - 1) <<< 10) ||| 0x8000`; every in-range result decodes, by
the platform's documented rule, back to the returned rounded length
(which also bounds it within `[L, L + 31]`), re-encoding the rounded length
reproduces the same pair, and every `L` outside `2..=1024` fails fast
(`none`, the model of the source's panic) instead of truncating. -/
theorem calcReceiveLenBits_spec :
    (∀ L, 2 ≤ L → L ≤ 60 →
      calcReceiveLenBits L = some (alignLenUp L, (alignLenUp L / 2) <<< 10)) ∧
    (∀ L, 61 ≤ L → L ≤ 1024 →
      calcReceiveLenBits L =
        some ((L + 31) / 32 * 32, (((L + 31) / 32 - 1) <<< 10) ||| 0x8000) ∧
      L ≤ (L + 31) / 32 * 32 ∧ (L + 31) / 32 * 32 ≤ L + 31) ∧
    (∀ L a c, 2 ≤ L → L ≤ 1024 → calcReceiveLenBits L = some (a, c) →
      L ≤ a ∧ a ≤ L + 31 ∧ decodeMaxLenCode c = a ∧
        calcReceiveLenBits a = some (a, c)) ∧
    (∀ L, L < 2 ∨ 1024 < L → calcReceiveLenBits L = none) := by
  refine ⟨?_, ?_, ?_, ?_⟩
  · intro L h1 h2
    rw [calcReceiveLenBits, if_pos ⟨h1, h2⟩]
  · intro L h1 h2
    rw [calcReceiveLenBits, if_neg (by omega), if_pos ⟨h1, h2⟩]
    refine ⟨rfl, by omega, by omega⟩
  · intro L a c h1 h2 hEq
    by_cases h60 : L ≤ 60
    · rw [calcReceiveLenBits, if_pos ⟨h1, h60⟩] at hEq
      have ha : a = alignLenUp L := by
        simpa using congrArg (Prod.fst ∘ Option.get!) hEq.symm
      have hc : c = (alignLenUp L / 2) <<< 10 := by
        simpa using congrArg (Prod.snd ∘ Option.get!) hEq.symm
      have haL : alignLenUp L = (L + 3) / 4 * 4 := by
        simp only [alignLenUp, USBRAM_ALIGN]
        omega
      have hdec : decodeMaxLenCode ((alignLenUp L / 2) <<< 10) = 2 * (alignLenUp L / 2) :=
        decodeMaxLenCode_small _ (by omega)
      refine ⟨by omega, by omega, ?_, ?_⟩
      · rw [hc, hdec]
        omega
      · rw [ha, hc, calcReceiveLenBits, if_pos ⟨by omega, by omega⟩]
        have : alignLenUp (alignLenUp L) = alignLenUp L := by
          simp only [alignLenUp, USBRAM_ALIGN]
          omega
        rw [this]
    · rw [calcReceiveLenBits, if_neg (by omega), if_pos ⟨by omega, h2⟩] at hEq
      have ha : a = (L + 31) / 32 * 32 := by
        simpa using congrArg (Prod.fst ∘ Option.get!) hEq.symm
      have hc : c = ((L + 31) / 32 - 1) <<< 10 ||| 0x8000 := by
        simpa using congrArg (Prod.snd ∘ Option.get!) hEq.symm
      have hdec : decodeMaxLenCode (((L + 31) / 32 - 1) <<< 10 ||| 0x8000) =
          ((L + 31) / 32 - 1 + 1) * 32 :=
        decodeMaxLenCode_large _ (by omega)
      refine ⟨by omega, by omega, ?_, ?_⟩
      · rw [hc, hdec]
        omega
      · rw [ha, hc, calcReceiveLenBits, if_neg (by omega), if_pos ⟨by omega, by omega⟩]
        have : ((L + 31) / 32 * 32 + 31) / 32 = (L + 31) / 32 := by omega
        rw [this]
  · intro L h
    rw [calcReceiveLenBits, if_neg (by omega), if_neg (by omega)]

theorem calcReceiveLenBits_spec_witness :
    (calcReceiveLenBits 10 = some (alignLenUp 10, (alignLenUp 10 / 2) <<< 10)) ∧
    (calcReceiveLenBits 100 =
        some ((100 + 31) / 32 * 32, (((100 + 31) / 32 - 1) <<< 10) ||| 0x8000) ∧
      100 ≤ (100 + 31) / 32 * 32 ∧ (100 + 31) / 32 * 32 ≤ 100 + 31) ∧
    (10 ≤ 12 ∧ 12 ≤ 10 + 31 ∧ decodeMaxLenCode (6 <<< 10) = 12 ∧
      calcReceiveLenBits 12 = some (12, 6 <<< 10)) ∧
    calcReceiveLenBits 2000 = none :=
  ⟨calcReceiveLenBits_spec.1 10 (by decide) (by decide),
    calcReceiveLenBits_spec.2.1 100 (by decide) (by decide),
    calcReceiveLenBits_spec.2.2.1 10 12 (6 <<< 10) (by decide) (by decide) (by decide),
    calcReceiveLenBits_spec.2.2.2 2000 (Or.inr (by decide))⟩

/-! ## C5 / C10: channel claiming and the in-use bitmasks -/

theorem or_shiftLeft_and_ne (x i : Nat) : (x ||| 1 <<< i) &&& (1 <<< i) ≠ 0 := by
  intro h
  have h1 : ((x ||| 1 <<< i) &&& (1 <<< i)).testBit i = false := by
    rw [h, Nat.zero_testBit]
  rw [Nat.testBit_land, Nat.testBit_lor, Nat.one_shiftLeft,
    Nat.testBit_two_pow_self] at h1
  simp at h1

/-- Whatever a claim of (index, In) returned, the output state has the
index's In bit set. -/
theorem claimChannelIn_bit_set (s : DriverState) (index mps : Nat)
    (r : ClaimOutcome) (s₁ : DriverState)
    (h : claimChannelIn s index mps = some (r, s₁)) :
    s₁.channelsInUsed &&& (1 <<< index) ≠ 0 := by
  by_cases h0 : s.channelsInUsed &&& (1 <<< index) ≠ 0
  · rw [claimChannelIn, if_pos h0] at h
    obtain ⟨rfl, rfl⟩ : ClaimOutcome.error .alreadyInUse = r ∧ s = s₁ := by
      simpa using h
    exact h0
  · rw [claimChannelIn, if_neg h0] at h
    rcases hc : calcReceiveLenBits mps with _ | ⟨len, bits⟩
    · rw [hc] at h
      simp at h
    · rw [hc] at h
      simp only [allocChannelMem] at h
      by_cases ha : len % USBRAM_ALIGN ≠ 0
      · rw [if_pos ha] at h
        simp at h
      · rw [if_neg ha] at h
        by_cases hw : s.epMemFree + len ≥ 65536
        · rw [if_pos hw] at h
          simp at h
        · rw [if_neg hw] at h
          by_cases hf : s.epMemFree + len > USBRAM_SIZE
          · rw [if_pos hf] at h
            obtain ⟨rfl, rfl⟩ : ClaimOutcome.error .outOfMemory = r ∧
                { s with channelsInUsed := s.channelsInUsed ||| 1 <<< index } = s₁ := by
              simpa using h
            exact or_shiftLeft_and_ne _ _
          · rw [if_neg hf] at h
            obtain ⟨rfl, rfl⟩ : _ ∧ _ = s₁ := by simpa using h
            exact or_shiftLeft_and_ne _ _

/-- Whatever a claim of (index, Out) returned, the output state has the
index's Out bit set. -/
theorem claimChannelOut_bit_set (s : DriverState) (index mps : Nat)
    (r : ClaimOutcome) (s₁ : DriverState)
    (h : claimChannelOut s index mps = some (r, s₁)) :
    s₁.channelsOutUsed &&& (1 <<< index) ≠ 0 := by
  by_cases h0 : s.channelsOutUsed &&& (1 <<< index) ≠ 0
  · rw [claimChannelOut, if_pos h0] at h
    obtain ⟨rfl, rfl⟩ : ClaimOutcome.error .alreadyInUse = r ∧ s = s₁ := by
      simpa using h
    exact h0
  · rw [claimChannelOut, if_neg h0] at h
    simp only [allocChannelMem] at h
    by_cases ha : alignLenUp mps % USBRAM_ALIGN ≠ 0
    · rw [if_pos ha] at h
      simp at h
    · rw [if_neg ha] at h
      by_cases hw : s.epMemFree + alignLenUp mps ≥ 65536
      · rw [if_pos hw] at h
        simp at h
      · rw [if_neg hw] at h
        by_cases hf : s.epMemFree + alignLenUp mps > USBRAM_SIZE
        · rw [if_pos hf] at h
          obtain ⟨rfl, rfl⟩ : ClaimOutcome.error .outOfMemory = r ∧
              { s with channelsOutUsed := s.channelsOutUsed ||| 1 <<< index } = s₁ := by
            simpa using h
          exact or_shiftLeft_and_ne _ _
        · rw [if_neg hf] at h
          obtain ⟨rfl, rfl⟩ : _ ∧ _ = s₁ := by simpa using h
          exact or_shiftLeft_and_ne _ _

/-- C5: claiming the same (index, direction) a second time without an
intervening full reset fails with the already-in-use error and returns the
allocator state unchanged, whatever the first claim's outcome was; after
`reset_alloc` (which rewinds the bump pointer and clears both bitmasks)
claiming the index again succeeds. -/
theorem claim_unique_until_reset :
    (∀ s index mps mps2 r s₁, index < 8 →
      claimChannelIn s index mps = some (r, s₁) →
      claimChannelIn s₁ index mps2 = some (.error .alreadyInUse, s₁)) ∧
    (∀ s index mps mps2 r s₁, index < 8 →
      claimChannelOut s index mps = some (r, s₁) →
      claimChannelOut s₁ index mps2 = some (.error .alreadyInUse, s₁)) ∧
    (∀ s index mps, index < 8 → 2 ≤ mps → mps ≤ 960 →
      ∃ ch s', claimChannelIn (resetAlloc s) index mps = some (.ok ch, s')) ∧
    (∀ s index mps, index < 8 → mps ≤ 960 →
      ∃ ch s', claimChannelOut (resetAlloc s) index mps = some (.ok ch, s')) := by
  refine ⟨?_, ?_, ?_, ?_⟩
  · intro s index mps mps2 r s₁ _ h
    rw [claimChannelIn, if_pos (claimChannelIn_bit_set s index mps r s₁ h)]
  · intro s index mps mps2 r s₁ _ h
    rw [claimChannelOut, if_pos (claimChannelOut_bit_set s index mps r s₁ h)]
  · intro s index mps _ h2 h960
    by_cases hm : mps ≤ 60
    · refine ⟨⟨index, EP_COUNT * 8, alignLenUp mps, mps⟩,
        ⟨EP_COUNT * 8 + alignLenUp mps, 0 ||| 1 <<< index, 0⟩, ?_⟩
      have halign : ¬(alignLenUp mps % USBRAM_ALIGN ≠ 0) := by
        simp only [alignLenUp, USBRAM_ALIGN]
        omega
      have hw : ¬(EP_COUNT * 8 + alignLenUp mps ≥ 65536) := by
        simp only [alignLenUp, USBRAM_ALIGN, EP_COUNT]
        omega
      have hfull : ¬(EP_COUNT * 8 + alignLenUp mps > USBRAM_SIZE) := by
        simp only [alignLenUp, USBRAM_ALIGN, EP_COUNT, USBRAM_SIZE]
        omega
      rw [claimChannelIn, resetAlloc, if_neg (by simp),
        calcReceiveLenBits, if_pos ⟨h2, hm⟩]
      simp only [allocChannelMem]
      rw [if_neg halign, if_neg hw, if_neg hfull]
    · refine ⟨⟨index, EP_COUNT * 8, (mps + 31) / 32 * 32, mps⟩,
        ⟨EP_COUNT * 8 + (mps + 31) / 32 * 32, 0 ||| 1 <<< index, 0⟩, ?_⟩
      have halign : ¬((mps + 31) / 32 * 32 % USBRAM_ALIGN ≠ 0) := by
        simp only [USBRAM_ALIGN]
        omega
      have hw : ¬(EP_COUNT * 8 + (mps + 31) / 32 * 32 ≥ 65536) := by
        simp only [EP_COUNT]
        omega
      have hfull : ¬(EP_COUNT * 8 + (mps + 31) / 32 * 32 > USBRAM_SIZE) := by
        simp only [EP_COUNT, USBRAM_SIZE]
        omega
      rw [claimChannelIn, resetAlloc, if_neg (by simp),
        calcReceiveLenBits, if_neg (by omega), if_pos ⟨by omega, by omega⟩]
      simp only [allocChannelMem]
      rw [if_neg halign, if_neg hw, if_neg hfull]
  · intro s index mps _ h960
    refine ⟨⟨index, EP_COUNT * 8, alignLenUp mps, mps⟩,
      ⟨EP_COUNT * 8 + alignLenUp mps, 0, 0 ||| 1 <<< index⟩, ?_⟩
    have halign : ¬(alignLenUp mps % USBRAM_ALIGN ≠ 0) := by
      simp only [alignLenUp, USBRAM_ALIGN]
      omega
    have hw : ¬(EP_COUNT * 8 + alignLenUp mps ≥ 65536) := by
      simp only [alignLenUp, USBRAM_ALIGN, EP_COUNT]
      omega
    have hfull : ¬(EP_COUNT * 8 + alignLenUp mps > USBRAM_SIZE) := by
      simp only [alignLenUp, USBRAM_ALIGN, EP_COUNT, USBRAM_SIZE]
      omega
    rw [claimChannelOut, resetAlloc, if_neg (by simp)]
    simp only [allocChannelMem]
    rw [if_neg halign, if_neg hw, if_neg hfull]

theorem claim_unique_until_reset_witness :
    claimChannelIn ⟨128, 2, 0⟩ 1 8 = some (.error .alreadyInUse, ⟨128, 2, 0⟩) ∧
    claimChannelOut ⟨128, 0, 2⟩ 1 8 = some (.error .alreadyInUse, ⟨128, 0, 2⟩) ∧
    (∃ ch s', claimChannelIn (resetAlloc ⟨128, 2, 0⟩) 1 64 = some (.ok ch, s')) ∧
    (∃ ch s', claimChannelOut (resetAlloc ⟨128, 0, 2⟩) 1 64 = some (.ok ch, s')) :=
  ⟨claim_unique_until_reset.1 ⟨64, 0, 0⟩ 1 64 8 (.ok ⟨1, 64, 64, 64⟩) ⟨128, 2, 0⟩
      (by decide) (by decide),
    claim_unique_until_reset.2.1 ⟨64, 0, 0⟩ 1 64 8 (.ok ⟨1, 64, 64, 64⟩) ⟨128, 0, 2⟩
      (by decide) (by decide),
    claim_unique_until_reset.2.2.1 ⟨128, 2, 0⟩ 1 64 (by decide) (by decide) (by decide),
    claim_unique_until_reset.2.2.2 ⟨128, 0, 2⟩ 1 64 (by decide) (by decide)⟩

/-- C10: both claim functions set the direction bitmask bit before
attempting packet-memory allocation, so a claim that fails because packet
memory is exhausted (the `u16` bump pointer plus the rounded length
exceeds the pool, without overflowing `u16` — the domain where the
source's `addr + len > USBRAM_SIZE` comparison is exact) still leaves the
(index, direction) marked in use with the bump pointer unchanged — no
memory and no channel object were produced — and every subsequent claim of
that index and direction fails with the already-in-use error (until a full
reset clears the masks). -/
theorem claim_alloc_failure_not_atomic :
    (∀ s index mps len bits mps2,
      s.channelsInUsed &&& (1 <<< index) = 0 →
      calcReceiveLenBits mps = some (len, bits) →
      USBRAM_SIZE < s.epMemFree + len →
      s.epMemFree + len < 65536 →
      claimChannelIn s index mps =
        some (.error .outOfMemory,
          { s with channelsInUsed := s.channelsInUsed ||| 1 <<< index }) ∧
      claimChannelIn { s with channelsInUsed := s.channelsInUsed ||| 1 <<< index }
          index mps2 =
        some (.error .alreadyInUse,
          { s with channelsInUsed := s.channelsInUsed ||| 1 <<< index })) ∧
    (∀ s index mps mps2,
      s.channelsOutUsed &&& (1 <<< index) = 0 →
      USBRAM_SIZE < s.epMemFree + alignLenUp mps →
      s.epMemFree + alignLenUp mps < 65536 →
      claimChannelOut s index mps =
        some (.error .outOfMemory,
          { s with channelsOutUsed := s.channelsOutUsed ||| 1 <<< index }) ∧
      claimChannelOut { s with channelsOutUsed := s.channelsOutUsed ||| 1 <<< index }
          index mps2 =
        some (.error .alreadyInUse,
          { s with channelsOutUsed := s.channelsOutUsed ||| 1 <<< index })) := by
  constructor
  · intro s index mps len bits mps2 h0 hcalc hfull hw
    have halign : ¬(len % USBRAM_ALIGN ≠ 0) := by
      rw [calcReceiveLenBits] at hcalc
      by_cases hA : 2 ≤ mps ∧ mps ≤ 60
      · rw [if_pos hA] at hcalc
        obtain ⟨rfl, rfl⟩ : alignLenUp mps = len ∧ _ = bits := by simpa using hcalc
        simp only [alignLenUp, USBRAM_ALIGN]
        omega
      · rw [if_neg hA] at hcalc
        by_cases hB : 61 ≤ mps ∧ mps ≤ 1024
        · rw [if_pos hB] at hcalc
          obtain ⟨rfl, rfl⟩ : (mps + 31) / 32 * 32 = len ∧ _ = bits := by
            simpa using hcalc
          simp only [USBRAM_ALIGN]
          omega
        · rw [if_neg hB] at hcalc
          simp at hcalc
    constructor
    · rw [claimChannelIn, if_neg (by simp [h0]), hcalc]
      simp only [allocChannelMem]
      rw [if_neg halign, if_neg (by omega), if_pos (by simpa using hfull)]
    · rw [claimChannelIn, if_pos (or_shiftLeft_and_ne _ _)]
  · intro s index mps mps2 h0 hfull hw
    have halign : ¬(alignLenUp mps % USBRAM_ALIGN ≠ 0) := by
      simp only [alignLenUp, USBRAM_ALIGN]
      omega
    constructor
    · rw [claimChannelOut, if_neg (by simp [h0])]
      simp only [allocChannelMem]
      rw [if_neg halign, if_neg (by omega), if_pos (by simpa using hfull)]
    · rw [claimChannelOut, if_pos (or_shiftLeft_and_ne _ _)]

theorem claim_alloc_failure_witness :
    (claimChannelIn ⟨1000, 0, 0⟩ 2 64 =
        some (.error .outOfMemory, ⟨1000, 0 ||| 1 <<< 2, 0⟩) ∧
      claimChannelIn ⟨1000, 0 ||| 1 <<< 2, 0⟩ 2 8 =
        some (.error .alreadyInUse, ⟨1000, 0 ||| 1 <<< 2, 0⟩)) ∧
    (claimChannelOut ⟨1000, 0, 0⟩ 2 64 =
        some (.error .outOfMemory, ⟨1000, 0, 0 ||| 1 <<< 2⟩) ∧
      claimChannelOut ⟨1000, 0, 0 ||| 1 <<< 2⟩ 2 8 =
        some (.error .alreadyInUse, ⟨1000, 0, 0 ||| 1 <<< 2⟩)) :=
  ⟨claim_alloc_failure_not_atomic.1 ⟨1000, 0, 0⟩ 2 64 64 ((1 <<< 10) ||| 0x8000) 8
      (by decide) (by decide) (by decide) (by decide),
    claim_alloc_failure_not_atomic.2 ⟨1000, 0, 0⟩ 2 64 8 (by decide) (by decide)
      (by decide)⟩

/-! ## C6: the endpoint-buffer codec round-trips -/

/-- The write loop never touches words below its starting index. -/
theorem ebWriteAux_lower (n : Nat) :
    ∀ (bytes : List Nat) (mem : Nat → Nat) (w j : Nat),
      bytes.length ≤ n → j < w → ebWriteAux mem w bytes j = mem j := by
  induction n with
  | zero =>
    intro bytes mem w j hn hj
    match bytes with
    | [] => rfl
    | b :: rest => simp at hn
  | succ n ih =>
    intro bytes mem w j hn hj
    match bytes with
    | [] => rfl
    | [b0] => simp [ebWriteAux, memUpd, Nat.ne_of_lt hj]
    | [b0, b1] => simp [ebWriteAux, memUpd, Nat.ne_of_lt hj]
    | [b0, b1, b2] => simp [ebWriteAux, memUpd, Nat.ne_of_lt hj]
    | b0 :: b1 :: b2 :: b3 :: rest =>
      rw [ebWriteAux, ih rest _ (w + 1) j (by simp at hn; omega) (by omega)]
      simp [memUpd, Nat.ne_of_lt hj]

theorem wordToLeBytes_round1 (b0 : Nat) (h0 : b0 < 256) :
    (wordToLeBytes (leBytesToWord [b0])).take 1 = [b0] := by
  simp only [wordToLeBytes, leBytesToWord, List.foldr, List.take]
  simp
  omega

theorem wordToLeBytes_round2 (b0 b1 : Nat) (h0 : b0 < 256) (h1 : b1 < 256) :
    (wordToLeBytes (leBytesToWord [b0, b1])).take 2 = [b0, b1] := by
  simp only [wordToLeBytes, leBytesToWord, List.foldr, List.take]
  simp
  omega

theorem wordToLeBytes_round3 (b0 b1 b2 : Nat) (h0 : b0 < 256) (h1 : b1 < 256)
    (h2 : b2 < 256) :
    (wordToLeBytes (leBytesToWord [b0, b1, b2])).take 3 = [b0, b1, b2] := by
  simp only [wordToLeBytes, leBytesToWord, List.foldr, List.take]
  simp
  omega

theorem wordToLeBytes_round4 (b0 b1 b2 b3 : Nat) (h0 : b0 < 256) (h1 : b1 < 256)
    (h2 : b2 < 256) (h3 : b3 < 256) :
    wordToLeBytes (leBytesToWord [b0, b1, b2, b3]) = [b0, b1, b2, b3] := by
  simp only [wordToLeBytes, leBytesToWord, List.foldr]
  simp
  omega

/-- Reading back the number of bytes just written yields the written
slice. -/
theorem ebRead_ebWrite (n : Nat) :
    ∀ (bytes : List Nat) (mem : Nat → Nat) (w : Nat),
      bytes.length ≤ n → (∀ b ∈ bytes, b < 256) →
      ebReadAux (ebWriteAux mem w bytes)
        ((bytes.length + USBRAM_ALIGN - 1) / USBRAM_ALIGN) w bytes.length = bytes := by
  induction n with
  | zero =>
    intro bytes mem w hn hb
    match bytes with
    | [] => rfl
    | b :: rest => simp at hn
  | succ n ih =>
    intro bytes mem w hn hb
    match bytes with
    | [] => rfl
    | [b0] =>
      have h0 : b0 < 256 := hb b0 (by simp)
      show ebReadAux _ ((1 + USBRAM_ALIGN - 1) / USBRAM_ALIGN) w 1 = _
      rw [show (1 + USBRAM_ALIGN - 1) / USBRAM_ALIGN = 1 from by
        simp [USBRAM_ALIGN]]
      rw [ebReadAux, ebReadAux]
      simp only [ebWriteAux, memUpd, if_pos rfl]
      rw [show min USBRAM_ALIGN 1 = 1 from by simp [USBRAM_ALIGN]]
      simp [wordToLeBytes_round1 b0 h0]
    | [b0, b1] =>
      have h0 : b0 < 256 := hb b0 (by simp)
      have h1 : b1 < 256 := hb b1 (by simp)
      show ebReadAux _ ((2 + USBRAM_ALIGN - 1) / USBRAM_ALIGN) w 2 = _
      rw [show (2 + USBRAM_ALIGN - 1) / USBRAM_ALIGN = 1 from by
        simp [USBRAM_ALIGN]]
      rw [ebReadAux, ebReadAux]
      simp only [ebWriteAux, memUpd, if_pos rfl]
      rw [show min USBRAM_ALIGN 2 = 2 from by simp [USBRAM_ALIGN]]
      simp [wordToLeBytes_round2 b0 b1 h0 h1]
    | [b0, b1, b2] =>
      have h0 : b0 < 256 := hb b0 (by simp)
      have h1 : b1 < 256 := hb b1 (by simp)
      have h2 : b2 < 256 := hb b2 (by simp)
      show ebReadAux _ ((3 + USBRAM_ALIGN - 1) / USBRAM_ALIGN) w 3 = _
      rw [show (3 + USBRAM_ALIGN - 1) / USBRAM_ALIGN = 1 from by
        simp [USBRAM_ALIGN]]
      rw [ebReadAux, ebReadAux]
      simp only [ebWriteAux, memUpd, if_pos rfl]
      rw [show min USBRAM_ALIGN 3 = 3 from by simp [USBRAM_ALIGN]]
      simp [wordToLeBytes_round3 b0 b1 b2 h0 h1 h2]
    | b0 :: b1 :: b2 :: b3 :: rest =>
      have h0 : b0 < 256 := hb b0 (by simp)
      have h1 : b1 < 256 := hb b1 (by simp)
      have h2 : b2 < 256 := hb b2 (by simp)
      have h3 : b3 < 256 := hb b3 (by simp)
      have hrest : ∀ b ∈ rest, b < 256 := fun b hbm => hb b (by simp [hbm])
      have hlen : (b0 :: b1 :: b2 :: b3 :: rest).length = rest.length + 4 := by
        simp
      rw [hlen]
      rw [show (rest.length + 4 + USBRAM_ALIGN - 1) / USBRAM_ALIGN =
          ((rest.length + USBRAM_ALIGN - 1) / USBRAM_ALIGN) + 1 from by
        simp only [USBRAM_ALIGN]
        omega]
      rw [ebReadAux]
      rw [show min USBRAM_ALIGN (rest.length + 4) = 4 from by
        simp only [USBRAM_ALIGN]
        omega]
      rw [show rest.length + 4 - 4 = rest.length from by omega]
      have hmemw : ebWriteAux mem w (b0 :: b1 :: b2 :: b3 :: rest) w =
          leBytesToWord [b0, b1, b2, b3] := by
        rw [ebWriteAux, ebWriteAux_lower rest.length rest _ (w + 1) w le_rfl
          (by omega)]
        simp [memUpd]
      have hrec : ebWriteAux mem w (b0 :: b1 :: b2 :: b3 :: rest) =
          ebWriteAux (memUpd mem w (leBytesToWord [b0, b1, b2, b3])) (w + 1) rest := by
        rw [ebWriteAux]
      rw [hmemw, hrec, wordToLeBytes_round4 b0 b1 b2 b3 h0 h1 h2 h3]
      have := ih rest (memUpd mem w (leBytesToWord [b0, b1, b2, b3])) (w + 1)
        (by simp at hn; omega) hrest
      rw [this]
      simp

/-- C6: the endpoint-buffer codec round-trips — for every byte slice that
fits the channel's allocated region, writing it into packet memory
(packing `USBRAM_ALIGN` bytes per word little-endian, zero-padding the
final partial word) and reading back that many bytes yields exactly the
original slice (reading truncates to the requested length). -/
theorem endpoint_buffer_roundtrip (eb : EndpointBuffer) (mem : Nat → Nat)
    (bytes : List Nat) (hlen : bytes.length ≤ eb.len)
    (hbytes : ∀ b ∈ bytes, b < 256) :
    ∃ mem', eb.writeBytes mem bytes = some mem' ∧
      eb.readBytes mem' bytes.length = some bytes := by
  refine ⟨ebWriteAux mem (eb.addr / USBRAM_ALIGN) bytes, ?_, ?_⟩
  · rw [EndpointBuffer.writeBytes, if_pos hlen]
  · rw [EndpointBuffer.readBytes, if_pos hlen]
    exact congrArg some (ebRead_ebWrite bytes.length bytes mem _ le_rfl hbytes)

theorem endpoint_buffer_roundtrip_witness :
    ([1, 2, 3, 4, 5] : List Nat).length ≤ (6 : Nat) ∧
    (∃ mem', EndpointBuffer.writeBytes ⟨8, 6⟩ (fun _ => 0) [1, 2, 3, 4, 5] = some mem' ∧
      EndpointBuffer.readBytes ⟨8, 6⟩ mem' ([1, 2, 3, 4, 5] : List Nat).length =
        some [1, 2, 3, 4, 5]) :=
  ⟨by decide,
    endpoint_buffer_roundtrip ⟨8, 6⟩ (fun _ => 0) [1, 2, 3, 4, 5] (by decide) (by decide)⟩

/-! ## C2 / C9: the read loop on Disabled status -/

/-- A Nak or Valid status (device connected, no timeout) leaves the poll
pending with nothing changed. -/
theorem readPoll_skip (mps bufLen : Nat) (region : EndpointBuffer)
    (timeoutMs : Option Nat) (obs : PollObs) (count : Nat) (buf : List Nat)
    (hd : obs.dconStat = true)
    (ht : timeoutExceeded timeoutMs obs.elapsed = false)
    (hs : obs.epr.stat_rx = Stat.nak ∨ obs.epr.stat_rx = Stat.valid) :
    readPoll mps bufLen region timeoutMs obs count buf =
      some (ReadStep.mk none false false obs.epr count buf) := by
  rw [readPoll, if_neg (by simp [hd]), if_neg (by simp [ht])]
  rcases hs with hs | hs <;> rw [hs]

/-- Disabled status, no overflow, transfer finished (buffer filled or short
packet): the poll returns the accumulated total with the received bytes
copied in at the current offset, without re-arming. -/
theorem readPoll_disabled_done (mps bufLen : Nat) (region : EndpointBuffer)
    (timeoutMs : Option Nat) (obs : PollObs) (count : Nat) (buf : List Nat)
    (hd : obs.dconStat = true)
    (ht : timeoutExceeded timeoutMs obs.elapsed = false)
    (hs : obs.epr.stat_rx = Stat.disabled)
    (hov : obs.rxLenRaw &&& 0x3FF ≤ bufLen - count)
    (hreg : obs.rxLenRaw &&& 0x3FF ≤ region.len)
    (hdone : count + (obs.rxLenRaw &&& 0x3FF) = bufLen ∨ obs.rxLenRaw &&& 0x3FF < mps) :
    readPoll mps bufLen region timeoutMs obs count buf =
      some (ReadStep.mk (some (.ok (count + (obs.rxLenRaw &&& 0x3FF)))) false true obs.epr
        (count + (obs.rxLenRaw &&& 0x3FF))
        (buf.take count ++
          ebReadAux obs.mem (((obs.rxLenRaw &&& 0x3FF) + USBRAM_ALIGN - 1) / USBRAM_ALIGN)
            (region.addr / USBRAM_ALIGN) (obs.rxLenRaw &&& 0x3FF) ++
          buf.drop (count + (obs.rxLenRaw &&& 0x3FF)))) := by
  rw [readPoll, if_neg (by simp [hd]), if_neg (by simp [ht])]
  rw [hs]
  simp only [if_neg (Nat.not_lt.mpr hov), if_pos hreg, if_pos hdone]

/-- Disabled status, no overflow, transfer not finished: the poll stays
pending, re-arms the channel (toggling its status back to Valid), and
accumulates the received bytes. -/
theorem readPoll_disabled_pending (mps bufLen : Nat) (region : EndpointBuffer)
    (timeoutMs : Option Nat) (obs : PollObs) (count : Nat) (buf : List Nat)
    (hd : obs.dconStat = true)
    (ht : timeoutExceeded timeoutMs obs.elapsed = false)
    (hs : obs.epr.stat_rx = Stat.disabled)
    (hov : obs.rxLenRaw &&& 0x3FF ≤ bufLen - count)
    (hreg : obs.rxLenRaw &&& 0x3FF ≤ region.len)
    (hmore : ¬(count + (obs.rxLenRaw &&& 0x3FF) = bufLen ∨ obs.rxLenRaw &&& 0x3FF < mps)) :
    readPoll mps bufLen region timeoutMs obs count buf =
      some (ReadStep.mk none true true (applyEprWrite obs.epr (activateRxWrite obs.epr))
        (count + (obs.rxLenRaw &&& 0x3FF))
        (buf.take count ++
          ebReadAux obs.mem (((obs.rxLenRaw &&& 0x3FF) + USBRAM_ALIGN - 1) / USBRAM_ALIGN)
            (region.addr / USBRAM_ALIGN) (obs.rxLenRaw &&& 0x3FF) ++
          buf.drop (count + (obs.rxLenRaw &&& 0x3FF)))) := by
  rw [readPoll, if_neg (by simp [hd]), if_neg (by simp [ht])]
  rw [hs]
  simp only [if_neg (Nat.not_lt.mpr hov), if_pos hreg, if_neg hmore]

/-- Packet memory holding a byte list starting at a word index. -/
def memOfBytes (baseWord : Nat) (bytes : List Nat) : Nat → Nat :=
  fun w => leBytesToWord ((bytes.drop ((w - baseWord) * 4)).take 4)

/-- A channel-register value whose receive status reads Disabled. -/
def eprRxDisabled : Epr := { eprSample with stat_rx := Stat.disabled }

def c2p1 : List Nat := List.range 64

def c2p2 : List Nat := (List.range 64).map (fun k => k + 100)

def c2p3 : List Nat := (List.range 20).map (fun k => k + 200)

/-- One simulated completed hardware transaction: Disabled status, the
payload's length in the descriptor's received-length field, the payload in
packet memory at word 16 (byte address 64). -/
def c2Obs (payload : List Nat) : PollObs :=
  { epr := eprRxDisabled, dconStat := true, elapsed := 0,
    rxLenRaw := payload.length, mem := memOfBytes 16 payload }

/-- Three hardware transactions of 64, 64 and 20 bytes delivered via
Disabled-status wakes. -/
def c2Trace : List PollObs := [c2Obs c2p1, c2Obs c2p2, c2Obs c2p3]

/-- C2: when the receive status reads Disabled (device connected, no
timeout, no overflow) the engine copies the received bytes into the caller
buffer at the current accumulated offset, returns the accumulated total
exactly when the buffer is now full or the packet is shorter than the max
packet size, and otherwise re-arms the channel (status toggled back to
Valid) and keeps polling; in particular, for a channel with max packet size
64 and a 200-byte buffer receiving transactions of 64, 64 and 20 bytes,
read returns `Ok 148` with the buffer's first 148 bytes the concatenation
of the three payloads, having seen three Disabled wakes and re-armed only
twice — not after the short packet. -/
theorem read_disabled_step_spec :
    (∀ mps bufLen region timeoutMs (obs : PollObs) count buf,
      obs.dconStat = true →
      timeoutExceeded timeoutMs obs.elapsed = false →
      obs.epr.stat_rx = Stat.disabled →
      obs.rxLenRaw &&& 0x3FF ≤ bufLen - count →
      obs.rxLenRaw &&& 0x3FF ≤ region.len →
      ∃ step, readPoll mps bufLen region timeoutMs obs count buf = some step ∧
        step.count = count + (obs.rxLenRaw &&& 0x3FF) ∧
        step.buf = buf.take count ++
          ebReadAux obs.mem (((obs.rxLenRaw &&& 0x3FF) + USBRAM_ALIGN - 1) / USBRAM_ALIGN)
            (region.addr / USBRAM_ALIGN) (obs.rxLenRaw &&& 0x3FF) ++
          buf.drop (count + (obs.rxLenRaw &&& 0x3FF)) ∧
        (step.outcome = some (.ok (count + (obs.rxLenRaw &&& 0x3FF))) ↔
          (count + (obs.rxLenRaw &&& 0x3FF) = bufLen ∨ obs.rxLenRaw &&& 0x3FF < mps)) ∧
        ((count + (obs.rxLenRaw &&& 0x3FF) = bufLen ∨ obs.rxLenRaw &&& 0x3FF < mps) →
          step.rearmed = false) ∧
        (¬(count + (obs.rxLenRaw &&& 0x3FF) = bufLen ∨ obs.rxLenRaw &&& 0x3FF < mps) →
          step.outcome = none ∧ step.rearmed = true ∧
            step.epr.stat_rx = Stat.valid)) ∧
    runRead 64 200 ⟨64, 64⟩ none c2Trace 0 (List.replicate 200 0) 0 0 =
      some ⟨.ok 148, c2p1 ++ c2p2 ++ c2p3 ++ List.replicate 52 0, 3, 2⟩ := by
  constructor
  · intro mps bufLen region timeoutMs obs count buf hd ht hs hov hreg
    by_cases hdone : count + (obs.rxLenRaw &&& 0x3FF) = bufLen ∨ obs.rxLenRaw &&& 0x3FF < mps
    · rw [readPoll_disabled_done mps bufLen region timeoutMs obs count buf hd ht hs hov
        hreg hdone]
      exact ⟨_, rfl, rfl, rfl, Iff.intro (fun _ => hdone) (fun _ => rfl),
        fun _ => rfl, fun hc => absurd hdone hc⟩
    · rw [readPoll_disabled_pending mps bufLen region timeoutMs obs count buf hd ht hs hov
        hreg hdone]
      exact ⟨_, rfl, rfl, rfl,
        Iff.intro (fun hc => by simp at hc) (fun hc => absurd hc hdone),
        fun hc => absurd hc hdone,
        fun _ => ⟨rfl, rfl, applyEprWrite_activateRx obs.epr⟩⟩
  · decide

/-- A single 3-byte packet observation for the step witness. -/
def c2WitObs : PollObs :=
  { epr := eprRxDisabled, dconStat := true, elapsed := 0, rxLenRaw := 3,
    mem := memOfBytes 16 [9, 8, 7] }

theorem read_disabled_step_witness :
    c2WitObs.dconStat = true ∧ c2WitObs.epr.stat_rx = Stat.disabled ∧
    (∃ step, readPoll 4 8 ⟨64, 8⟩ none c2WitObs 0 (List.replicate 8 0) = some step ∧
      step.count = 0 + (c2WitObs.rxLenRaw &&& 0x3FF) ∧
      step.buf = (List.replicate 8 0).take 0 ++
        ebReadAux c2WitObs.mem
          (((c2WitObs.rxLenRaw &&& 0x3FF) + USBRAM_ALIGN - 1) / USBRAM_ALIGN)
          ((64 : Nat) / USBRAM_ALIGN) (c2WitObs.rxLenRaw &&& 0x3FF) ++
        (List.replicate 8 0).drop (0 + (c2WitObs.rxLenRaw &&& 0x3FF)) ∧
      (step.outcome = some (.ok (0 + (c2WitObs.rxLenRaw &&& 0x3FF))) ↔
        (0 + (c2WitObs.rxLenRaw &&& 0x3FF) = 8 ∨ c2WitObs.rxLenRaw &&& 0x3FF < 4)) ∧
      ((0 + (c2WitObs.rxLenRaw &&& 0x3FF) = 8 ∨ c2WitObs.rxLenRaw &&& 0x3FF < 4) →
        step.rearmed = false) ∧
      (¬(0 + (c2WitObs.rxLenRaw &&& 0x3FF) = 8 ∨ c2WitObs.rxLenRaw &&& 0x3FF < 4) →
        step.outcome = none ∧ step.rearmed = true ∧
          step.epr.stat_rx = Stat.valid)) :=
  ⟨rfl, rfl,
    read_disabled_step_spec.1 4 8 ⟨64, 8⟩ none c2WitObs 0 (List.replicate 8 0)
      rfl rfl rfl (by decide) (by decide)⟩

/-- C9 counterexample: a trace presenting two short packets (20 bytes each,
max packet size 64). The read completes after the first Disabled-status
observation with `Ok 20` and no re-arm — not after the two Disabled
observations with the 40-byte sum the claim requires for N = 2. -/
theorem read_short_packets_cex :
    (runRead 64 200 ⟨64, 64⟩ none [c2Obs c2p3, c2Obs c2p3] 0
        (List.replicate 200 0) 0 0).map
      (fun r => (r.result, r.disabledSeen, r.rearms)) = some (.ok 20, 1, 0) ∧
    ¬(runRead 64 200 ⟨64, 64⟩ none [c2Obs c2p3, c2Obs c2p3] 0
        (List.replicate 200 0) 0 0).map
      (fun r => (r.result, r.disabledSeen, r.rearms)) = some (.ok 40, 2, 0) := by
  decide

/-- C9 (amended): once a short packet (fewer bytes than the max packet
size) is delivered, the read completes right there: for a fresh read over a
trace of Nak/Valid polls followed by a short-packet Disabled observation,
the operation completes after exactly one Disabled-status observation —
the first short packet — returns the bytes accumulated up to and including
it, and never re-arms the channel. -/
theorem read_short_packet_amended (mps bufLen : Nat) (region : EndpointBuffer)
    (pre post : List PollObs) (obs : PollObs)
    (hpre : ∀ o ∈ pre, o.dconStat = true ∧
      (o.epr.stat_rx = Stat.nak ∨ o.epr.stat_rx = Stat.valid))
    (hd : obs.dconStat = true)
    (hs : obs.epr.stat_rx = Stat.disabled)
    (hshort : obs.rxLenRaw &&& 0x3FF < mps)
    (hreg : obs.rxLenRaw &&& 0x3FF ≤ region.len)
    (hbuf : obs.rxLenRaw &&& 0x3FF ≤ bufLen) :
    ∃ r, runRead mps bufLen region none (pre ++ obs :: post) 0
        (List.replicate bufLen 0) 0 0 = some r ∧
      r.result = .ok (obs.rxLenRaw &&& 0x3FF) ∧
      r.disabledSeen = 1 ∧ r.rearms = 0 := by
  induction pre with
  | nil =>
    rw [List.nil_append, runRead,
      readPoll_disabled_done mps bufLen region none obs 0 (List.replicate bufLen 0)
        hd rfl hs (by omega) hreg (Or.inr hshort)]
    exact ⟨_, rfl, by simp, rfl, rfl⟩
  | cons o pre ih =>
    have ho := hpre o (by simp)
    rw [List.cons_append, runRead,
      readPoll_skip mps bufLen region none o 0 (List.replicate bufLen 0)
        ho.1 rfl ho.2]
    exact ih (fun o' ho' => hpre o' (by simp [ho']))

/-- One pending (Valid status) poll observation. -/
def obsPendingValid : PollObs :=
  { epr := eprSample, dconStat := true, elapsed := 0, rxLenRaw := 0,
    mem := fun _ => 0 }

theorem read_short_packet_amended_witness :
    (∃ r, runRead 64 200 ⟨64, 64⟩ none ([obsPendingValid] ++ c2Obs c2p3 :: []) 0
        (List.replicate 200 0) 0 0 = some r ∧
      r.result = .ok ((c2Obs c2p3).rxLenRaw &&& 0x3FF) ∧
      r.disabledSeen = 1 ∧ r.rearms = 0) :=
  read_short_packet_amended 64 200 ⟨64, 64⟩ [obsPendingValid] [] (c2Obs c2p3)
    (by
      intro o ho
      simp only [List.mem_singleton] at ho
      subst ho
      exact ⟨rfl, Or.inr rfl⟩)
    rfl rfl (by decide) (by decide) (by decide)

end UsbHost
